import Mathlib

/-!
Verification development for the Bible outline verse-populator repository.

The repository has two parts relevant here:

* the reference-detection / range-expansion / context-tracking /
  deduplication engine described in the design document (the Python backend
  sources are not part of this tree, so those components are modelled
  directly from the design document wording, marked `Modelled from the
  spec:` below), and
* the JavaScript frontend and test clients (`src/config/api.js`,
  `src/components/FileUpload.jsx`, `src/components/OutlineEditor.jsx`,
  `src/components/EnhancedUpload.jsx`, `test-api-connection.js`), which are
  embedded from their sources.

All string processing is done on `List Char` with structural recursion so
that every definition evaluates by kernel reduction.
-/

namespace BibleOutline

/-! ## Basic character/string helpers (shared by the embedded components) -/

/-- Decimal digit value of a character, `none` when not a digit. -/
def digitVal (c : Char) : Option Nat :=
  if '0' ≤ c ∧ c ≤ '9' then some (c.toNat - '0'.toNat) else none

/-- Parse a nonempty all-digit character list as a natural number. -/
def toNatL (l : List Char) : Option Nat :=
  match l with
  | [] => none
  | _ =>
    l.foldl (fun acc c => acc.bind fun n => (digitVal c).map fun d => n * 10 + d)
      (some 0)

/-- Lower-case an ASCII letter (identity elsewhere). -/
def lowerChar (c : Char) : Char :=
  if 'A' ≤ c ∧ c ≤ 'Z' then Char.ofNat (c.toNat + 32) else c

/-- Lower-case a character list. -/
def lowerL (l : List Char) : List Char := l.map lowerChar

/-- Split a character list on a separator character (the separator is
dropped; n separators yield n+1 pieces). -/
def splitOnChar (sep : Char) : List Char → List (List Char)
  | [] => [[]]
  | c :: rest =>
    let r := splitOnChar sep rest
    if c = sep then
      [] :: r
    else
      match r with
      | [] => [[c]]
      | h :: t => (c :: h) :: t

/-- Drop leading spaces. -/
def dropSpaces (l : List Char) : List Char := l.dropWhile (· = ' ')

/-- Trim spaces from both ends. -/
def trimL (l : List Char) : List Char :=
  ((dropSpaces l).reverse.dropWhile (· = ' ')).reverse

/-- `some rest` when `l` begins with the pattern `p`, consuming it. -/
def stripPrefixL : List Char → List Char → Option (List Char)
  | [], l => some l
  | _ :: _, [] => none
  | p :: ps, c :: cs => if p = c then stripPrefixL ps cs else none

/-! ## Data model

Modelled from the spec: §3 defines
`Reference = {book, chapter, verseStart, verseEnd?}` with invariant
`verseStart ≤ verseEnd` when present and `chapter ≥ 1`.  The canonical
per-verse references produced by the Range Expander carry `verseEnd = none`.
-/

/-- Modelled from the spec: a scripture reference value (§3 data model). -/
structure Reference where
  book : String
  chapter : Nat
  verseStart : Nat
  verseEnd : Option Nat
deriving DecidableEq, Repr

/-- Modelled from the spec: the §3 invariant on a `Reference`:
`verseStart ≤ verseEnd` when present, and `chapter ≥ 1`. -/
def refOK (r : Reference) : Prop :=
  (match r.verseEnd with
   | some e => r.verseStart ≤ e
   | none => True) ∧ 1 ≤ r.chapter

instance refOK.decidable (r : Reference) : Decidable (refOK r) := by
  rcases r with ⟨b, c, vs, ve⟩
  cases ve with
  | none => exact decidable_of_iff (1 ≤ c) (by simp [refOK])
  | some e => exact decidable_of_iff (vs ≤ e ∧ 1 ≤ c) (by simp [refOK])

/-- One comma-list element: a single verse or a verse range (§4.1 List
shape, §4.3 expansion input). -/
inductive VerseElem where
  | single (v : Nat)
  | range (a b : Nat)
deriving DecidableEq, Repr

/-- One `<chapter>:<elements>` clause of a citation (shared book). -/
structure Clause where
  chapter : Nat
  elems : List VerseElem
deriving DecidableEq, Repr

/-! ## Book Registry

Modelled from the spec: §2 "canonical book identifiers,
abbreviation/alias table"; §4.1 "Book-token matching is case-insensitive,
trailing period optional, resolved against the Book Registry".  The alias
table below is the fragment of the 66-book registry exercised by the
design document examples. -/

/-- Modelled from the spec: alias table rows `(lower-cased alias, canonical book)`. -/
def bookAliases : List (List Char × String) :=
  [("eph".toList, "Ephesians"), ("ephesians".toList, "Ephesians"),
   ("rom".toList, "Romans"), ("romans".toList, "Romans"),
   ("acts".toList, "Acts"),
   ("john".toList, "John"),
   ("1 john".toList, "1 John"),
   ("matt".toList, "Matthew"), ("matthew".toList, "Matthew"),
   ("gen".toList, "Genesis"), ("genesis".toList, "Genesis")]

/-- Drop one trailing period from a token, when present. -/
def dropTrailingPeriod (l : List Char) : List Char :=
  match l.reverse with
  | '.' :: rest => rest.reverse
  | _ => l

/-- Modelled from the spec: resolve a book token against the registry,
case-insensitively, trailing period optional (§4.1). -/
def resolveBook (tok : List Char) : Option String :=
  let key := lowerL (dropTrailingPeriod (trimL tok))
  (bookAliases.find? fun p => p.1 = key).map Prod.snd

/-! ## Candidate Extractor: parsing the citation shapes

Modelled from the spec: §4.1 shapes
Standard `<Book> <c>:<v>[-<v>]`, List `<Book> <c>:<v1>, <v2>-<v3>, <v4>`,
semicolon-joined clauses sharing a book (`"Eph. 4:7-16; 6:10-20"`),
numbered books (leading `1`/`2`/`3`/`I`/`II`/`III` token), and
Standalone `v. <n>` / `vv. <n>-<m>`.  Malformed numerals or unknown book
tokens make the parse fail (`none`): "silently discarded (not an error —
simply not a reference)". -/

/-- Parse one comma-list element: `v` or `a-b`. -/
def parseVerseElem (l : List Char) : Option VerseElem :=
  match splitOnChar '-' (trimL l) with
  | [a] => (toNatL (trimL a)).map VerseElem.single
  | [a, b] =>
    match toNatL (trimL a), toNatL (trimL b) with
    | some x, some y => some (VerseElem.range x y)
    | _, _ => none
  | _ => none

/-- Parse one `<chapter>:<verse-elements>` clause. -/
def parseClause (l : List Char) : Option Clause :=
  match splitOnChar ':' l with
  | [c, vs] =>
    match toNatL (trimL c) with
    | some ch => ((splitOnChar ',' vs).mapM parseVerseElem).map (Clause.mk ch)
    | none => none
  | _ => none

/-- Modelled from the spec: numbered-book leading tokens (§4.1). -/
def numberedBookTokens : List (List Char) :=
  [['1'], ['2'], ['3'], ['i'], ['i', 'i'], ['i', 'i', 'i']]

/-- Split a citation into its book token and the clause text, honouring
numbered books. -/
def splitBookToken (l : List Char) : List Char × List Char :=
  match (splitOnChar ' ' (trimL l)).filter (fun w => ¬ w.isEmpty) with
  | [] => ([], [])
  | w :: ws =>
    if numberedBookTokens.contains (lowerL w) then
      match ws with
      | [] => (w, [])
      | w2 :: ws2 => (w ++ ' ' :: w2, List.intercalate [' '] ws2)
    else
      (w, List.intercalate [' '] ws)

/-- Modelled from the spec: parse a full citation
`<Book> <clause>[; <clause>…]` into its canonical book and clauses. -/
def parseHeaderRefL (l : List Char) : Option (String × List Clause) :=
  let (btok, rest) := splitBookToken l
  match resolveBook btok with
  | none => none
  | some book =>
    ((splitOnChar ';' rest).mapM parseClause).map fun cls => (book, cls)

/-- String-level wrapper for `parseHeaderRefL`. -/
def parseHeaderRef (s : String) : Option (String × List Clause) :=
  parseHeaderRefL s.toList

/-- Modelled from the spec: parse a Standalone citation
`v. <n>` / `vv. <n>-<m>` (§4.1). -/
def parseStandaloneL (l : List Char) : Option VerseElem :=
  let t := trimL l
  match stripPrefixL "vv.".toList t with
  | some rest =>
    match splitOnChar '-' (trimL rest) with
    | [a, b] =>
      match toNatL (trimL a), toNatL (trimL b) with
      | some x, some y => some (VerseElem.range x y)
      | _, _ => none
    | _ => none
  | none =>
    match stripPrefixL "v.".toList t with
    | some rest => (toNatL (trimL rest)).map VerseElem.single
    | none => none

/-! ## Range Expander & Normalizer

Modelled from the spec: §4.3.  "For a verse range `a-b`, emits one
Reference per integer in `[a,b]` ascending.  For a comma list, applies the
shared book/chapter and expands each element independently, preserving
input order. … `verseEnd < verseStart` is treated as a discard-and-log
error"; §3 invariant `chapter ≥ 1`. -/

/-- Modelled from the spec: the §4.3/§7 discard-and-log entries relevant to
expansion (`ParseDiscard` class). -/
inductive DiscardLog where
  | badRange (book : String) (chapter a b : Nat)
  | badChapter (book : String) (chapter : Nat)
deriving DecidableEq, Repr

/-- Modelled from the spec: expand one list element under a shared
book/chapter into canonical per-verse References; a decreasing range is
discarded and logged (§4.3). -/
def expandElem (book : String) (ch : Nat) : VerseElem → List Reference × List DiscardLog
  | VerseElem.single v => ([⟨book, ch, v, none⟩], [])
  | VerseElem.range a b =>
    if b < a then
      ([], [DiscardLog.badRange book ch a b])
    else
      ((List.range (b + 1 - a)).map fun i => ⟨book, ch, a + i, none⟩, [])

/-- Modelled from the spec: expand one clause, each element independently
in input order (§4.3); a clause violating `chapter ≥ 1` (§3) is discarded
and logged. -/
def expandClause (book : String) (cl : Clause) : List Reference × List DiscardLog :=
  if cl.chapter = 0 then
    ([], [DiscardLog.badChapter book cl.chapter])
  else
    cl.elems.foldl
      (fun acc e =>
        let r := expandElem book cl.chapter e
        (acc.1 ++ r.1, acc.2 ++ r.2))
      ([], [])

/-- Modelled from the spec: expand the semicolon-joined clauses of one
citation, in input order. -/
def expandClauses (book : String) (cls : List Clause) : List Reference × List DiscardLog :=
  cls.foldl
    (fun acc cl =>
      let r := expandClause book cl
      (acc.1 ++ r.1, acc.2 ++ r.2))
    ([], [])

/-- Modelled from the spec: parse a citation header and expand it into its
canonical per-verse References. -/
def expandHeader (s : String) : Option (List Reference) :=
  (parseHeaderRef s).map fun bc => (expandClauses bc.1 bc.2).1

/-! ## Candidates and the Deduplicator

Modelled from the spec: §3 `Candidate` (kind ∈ {Standard, Parenthetical,
…}, references[]); §4.1 "Parenthetical: any shape enclosed in parentheses —
same parse, different render hint"; §4.4 "Within one outline line, never
attach the same canonical Reference twice even if cited via two different
textual shapes." -/

/-- Modelled from the spec: candidate kinds (§3). -/
inductive CandKind where
  | standard
  | parenthetical
  | standalone
deriving DecidableEq, Repr

/-- Modelled from the spec: a detection candidate with its canonical
references (§3). -/
structure Candidate where
  kind : CandKind
  refs : List Reference
deriving DecidableEq, Repr

/-- Strip one enclosing parenthesis pair, when present. -/
def unparen (l : List Char) : Option (List Char) :=
  match l with
  | '(' :: rest =>
    match rest.reverse with
    | ')' :: rev => some rev.reverse
    | _ => none
  | _ => none

/-- Modelled from the spec: parse one citation occurrence on a line into a
candidate: a parenthesized shape gets "same parse, different render hint"
(§4.1). -/
def parseCandidate (s : String) : Option Candidate :=
  match unparen (trimL s.toList) with
  | some inner =>
    (parseHeaderRefL inner).map fun bc =>
      ⟨CandKind.parenthetical, (expandClauses bc.1 bc.2).1⟩
  | none =>
    (parseHeaderRefL (trimL s.toList)).map fun bc =>
      ⟨CandKind.standard, (expandClauses bc.1 bc.2).1⟩

/-- Modelled from the spec: attach a canonical Reference to an outline
node list unless it is already attached (§4.4). -/
def attachRef (acc : List Reference) (r : Reference) : List Reference :=
  if r ∈ acc then acc else acc ++ [r]

/-- Modelled from the spec: attach all references of one outline line to the node of that line, deduplicating across textual shapes (§4.4). -/
def attachCandidates (cands : List Candidate) : List Reference :=
  cands.foldl (fun acc c => c.refs.foldl attachRef acc) []

/-! ## Context Tracker

Modelled from the spec: §4.2.  A "Scripture Reading" header pushes a
section-scoped context governing Standalone resolution "even across
intervening references"; it pops at the next header of equal-or-higher
rank.  Every accepted candidate with an explicit book/chapter updates
`currentBook`/`currentChapter`.  Resolution order: top of section-scope
stack, then nearest-preceding context; unresolvable standalones are
dropped (`UnresolvedContext`). -/

/-- Modelled from the spec: `ContextState` — current book/chapter plus the
stack of section-scoped contexts (§3). -/
structure ContextState where
  current : Option (String × Nat)
  stack : List (String × Nat)
deriving DecidableEq, Repr

/-- Fresh per-run context (§3 lifecycle: scoped to a single pass). -/
def initCtx : ContextState := ⟨none, []⟩

/-- Modelled from the spec: standalone resolution order — top of the
section-scope stack, then nearest-preceding context (§4.2). -/
def resolveStandalone (st : ContextState) : Option (String × Nat) :=
  match st.stack with
  | ctx :: _ => some ctx
  | [] => st.current

/-- The textual marker of a Scripture Reading header. -/
def srMarker : List Char := "Scripture Reading:".toList

/-- Chapter governing the context after an explicit citation: the chapter
of its last clause (scan order). -/
def lastChapter (cls : List Clause) : Nat :=
  match cls.getLast? with
  | some cl => cl.chapter
  | none => 1

/-- Modelled from the spec: the accepted clauses of a citation — those
that survive the §3 invariant gate `chapter ≥ 1` (§4.2 only "accepted"
candidates update the context). -/
def validClauses (cls : List Clause) : List Clause :=
  cls.filter fun cl => cl.chapter ≠ 0

/-- A document line as delivered by the structure-preserving text
extraction collaborator (§6): either a header of rank equal-or-higher than
a Scripture Reading header (Title/Subtitle), or a text line scanned for
citations. -/
inductive LineItem where
  | header
  | text (s : String)

/-- Modelled from the spec: handle a Scripture Reading header citation —
emit its expanded references and, when at least one clause survives the
`chapter ≥ 1` gate (§4.2 says every *accepted* candidate updates the
context), push a section scope and update the current context; a fully
discarded citation leaves the context untouched. -/
def processSR (st : ContextState) (b : String) (cls : List Clause) :
    ContextState × List Reference :=
  match validClauses cls with
  | [] => (st, (expandClauses b cls).1)
  | c1 :: vrest =>
    (⟨some (b, lastChapter (c1 :: vrest)), (b, c1.chapter) :: st.stack⟩,
     (expandClauses b cls).1)

/-- Modelled from the spec: handle an explicit in-body citation — emit
its expanded references and, when at least one clause survives the
`chapter ≥ 1` gate, update the current context (never the stack); a
fully discarded citation leaves the context untouched (§4.2). -/
def processExplicit (st : ContextState) (b : String) (cls : List Clause) :
    ContextState × List Reference :=
  match validClauses cls with
  | [] => (st, (expandClauses b cls).1)
  | c1 :: vrest =>
    (⟨some (b, lastChapter (c1 :: vrest)), st.stack⟩, (expandClauses b cls).1)

/-- Modelled from the spec: handle a Standalone citation — resolve it
through the context (§4.2) and expand it there; an unresolvable
standalone is dropped (`UnresolvedContext`). -/
def processStandalone (st : ContextState) (e : VerseElem) :
    ContextState × List Reference :=
  match resolveStandalone st with
  | some (b, c) => (st, (expandElem b c e).1)
  | none => (st, [])

/-- Modelled from the spec: handle the citation text of a Scripture
Reading header — parse it and apply `processSR`; a line that does not
parse emits nothing. -/
def processSRLine (st : ContextState) (rest : List Char) :
    ContextState × List Reference :=
  match parseHeaderRefL rest with
  | some (b, cls) => processSR st b cls
  | none => (st, [])

/-- Modelled from the spec: scan a non-header body line — a Standalone
citation resolves through the context, an explicit citation applies
`processExplicit`, anything else emits nothing. -/
def processBody (st : ContextState) (l : List Char) :
    ContextState × List Reference :=
  match parseStandaloneL l with
  | some e => processStandalone st e
  | none =>
    match parseHeaderRefL l with
    | some (b, cls) => processExplicit st b cls
    | none => (st, [])

/-- Modelled from the spec: scan one text line, threading the
`ContextState` (§4.2) and emitting the canonical references of the line. -/
def processText (st : ContextState) (l : List Char) : ContextState × List Reference :=
  match stripPrefixL srMarker (trimL l) with
  | some rest => processSRLine st rest
  | none => processBody st l

/-- Modelled from the spec: process one line item — an equal-or-higher
rank header pops the section scope (§4.2), a text line is scanned. -/
def processItem (st : ContextState) : LineItem → ContextState × List Reference
  | LineItem.header => (⟨st.current, st.stack.tail⟩, [])
  | LineItem.text s => processText st s.toList

/-- Modelled from the spec: one full pattern-based detection pass over a
document, from a fresh per-run context, references in scan order (§2 data
flow). -/
def runDetection (doc : List LineItem) : List Reference :=
  (doc.foldl
    (fun acc it =>
      let r := processItem acc.1 it
      (r.1, acc.2 ++ r.2))
    (initCtx, [])).2

/-- Modelled from the spec: full detection with the optional
generative-detection fallback (§4.5): when enabled, its references are
reconciled with the pattern-based ones through the Deduplicator (§4.4),
keeping the pattern-based entry; when disabled, the pattern-only result
stands. -/
def runDetectionFull (useGen : Bool) (genService : List LineItem → List Reference)
    (doc : List LineItem) : List Reference :=
  if useGen then
    (genService doc).foldl attachRef (runDetection doc)
  else
    runDetection doc

/-! ## Frontend embeddings

These definitions are embedded from the JavaScript sources in
`bible-outline-enhanced-frontend/src` and `test-api-connection.js`.
JavaScript strings are embedded as `List Char`. -/

namespace Frontend

/-- From `src/config/api.js` lines 2–5: the API base URL, chosen by the
build-mode flag `isDevelopment`. -/
def API_BASE_URL (isDevelopment : Bool) : List Char :=
  if isDevelopment then "/api".toList
  else "https://bible-outline-backend.onrender.com/api".toList

/-- From `src/config/api.js` lines 7–11: when the endpoint starts with a
slash, drop it (`endpoint.slice(1)`), then join base, one slash, and the
cleaned endpoint. -/
def getApiUrl (isDevelopment : Bool) (endpoint : List Char) : List Char :=
  let cleanEndpoint := if endpoint.head? = some '/' then endpoint.tail else endpoint
  API_BASE_URL isDevelopment ++ '/' :: cleanEndpoint

/-- The endpoint cleanup as the claim words it: `e` with one leading
slash stripped if present (stated from the claim, for comparison with the
source definition above). -/
def stripOneLeadingSlash (e : List Char) : List Char :=
  if e.head? = some '/' then e.tail else e

/-- A rendered-document (populate) request as built by the clients: the
endpoint it is POSTed to, the session it concerns, and the `format`
field of its JSON body. -/
structure PopulateCall where
  endpoint : String
  session : String
  format : String
deriving DecidableEq, Repr

/-- The two layout values the rendered-document interface admits
(`renderedDocument(layout: inline|margin)`). -/
def layoutValues : List String := ["inline", "margin"]

/-- From `src/components/OutlineEditor.jsx` lines 48–56
(`handlePopulateVerses`): POST `process-document` with
`format = inline`. -/
def handlePopulateVersesCall (sessionId : String) : PopulateCall :=
  ⟨"process-document", sessionId, "inline"⟩

/-- From `src/components/EnhancedUpload.jsx` lines 79–82
(`handlePopulate`): POST `enhanced/populate/<sessionId>` with
`format = inline`. -/
def handlePopulateCall (sessionId : String) : PopulateCall :=
  ⟨"enhanced/populate/" ++ sessionId, sessionId, "inline"⟩

/-- From `test-api-connection.js` lines 81–88 (`testPopulateVerses`):
POST `enhanced/populate/<sessionId>` with `format = margin`. -/
def testPopulateVersesCall (sessionId : String) : PopulateCall :=
  ⟨"enhanced/populate/" ++ sessionId, sessionId, "margin"⟩

/-- From `src/unnamed/part_004` lines 55–71 — a second test client with
its own `testPopulateVerses` (the B25ANCC02 upload test): POST
`enhanced/populate/<sessionId>` with `format = margin`. -/
def uploadTestPopulateVersesCall (sessionId : String) : PopulateCall :=
  ⟨"enhanced/populate/" ++ sessionId, sessionId, "margin"⟩

/-! ### FileUpload.jsx -/

/-- From `src/components/FileUpload.jsx` lines 45–50: the allowed MIME
types. -/
def allowedTypes : List String :=
  ["application/pdf",
   "application/msword",
   "application/vnd.openxmlformats-officedocument.wordprocessingml.document",
   "text/plain"]

/-- The parts of a browser `File` object that `handleFileUpload` reads. -/
structure UploadFile where
  type : String
  size : Nat
deriving DecidableEq, Repr

/-- The parsed JSON body of the upload response as `handleFileUpload`
reads it: a `success` flag, an optional `error` message and an optional
`references_found` count (absent/empty fields are falsy in JavaScript). -/
structure UploadResult where
  success : Bool
  error : Option String
  references_found : Option Nat
deriving DecidableEq, Repr

/-- What the network interaction produced: a parsed JSON body, or a
thrown error (failed fetch / unparsable body), which the `catch` block
handles. -/
inductive ServerOutcome where
  | json (r : UploadResult)
  | thrown
deriving DecidableEq, Repr

/-- The observable effects of one `handleFileUpload` run: the error and
success messages set, whether the upload request was issued, and whether
`onFileProcessed` was invoked. -/
structure UploadEffects where
  errorMsg : Option String
  successMsg : Option String
  requestIssued : Bool
  callbackInvoked : Bool
deriving DecidableEq, Repr

/-- From `FileUpload.jsx` line 53. -/
def typeErrorMsg : String := "Please upload a PDF or Word document (.pdf, .doc, .docx)"

/-- From `FileUpload.jsx` line 59. -/
def sizeErrorMsg : String := "File size must be less than 10MB"

/-- From `FileUpload.jsx` line 97 (the `||` fallback). -/
def fallbackErrorMsg : String := "Failed to process document"

/-- From `FileUpload.jsx` line 100 (the `catch` branch). -/
def networkErrorMsg : String := "Network error. Please check if the backend server is running."

/-- JavaScript `x || fallback` on an optional string: absent or empty is
falsy. -/
def jsOrElse (e : Option String) (fallback : String) : String :=
  match e with
  | some s => if s = "" then fallback else s
  | none => fallback

/-- From `src/components/FileUpload.jsx` lines 43–107
(`handleFileUpload`): reject a disallowed MIME type, then an oversized
file, before any network activity; otherwise issue the request and
dispatch on the `success` flag of the parsed body, invoking `onFileProcessed`
only on success. -/
def handleFileUpload (file : UploadFile) (server : ServerOutcome) : UploadEffects :=
  if ¬ allowedTypes.contains file.type then
    ⟨some typeErrorMsg, none, false, false⟩
  else if 10 * 1024 * 1024 < file.size then
    ⟨some sizeErrorMsg, none, false, false⟩
  else
    match server with
    | ServerOutcome.json r =>
      if r.success then
        ⟨none,
         some ("Document processed successfully! Found " ++
               toString (r.references_found.getD 0) ++ " verse references."),
         true, true⟩
      else
        ⟨some (jsOrElse r.error fallbackErrorMsg), none, true, false⟩
    | ServerOutcome.thrown => ⟨some networkErrorMsg, none, true, false⟩

end Frontend

/-! ## Helper lemmas -/

/-- Attaching one reference preserves distinctness of the attached list. -/
theorem attachRef_nodup (acc : List Reference) (r : Reference) (h : acc.Nodup) :
    (attachRef acc r).Nodup := by
  unfold attachRef
  by_cases hr : r ∈ acc
  · simpa [hr] using h
  · simp only [hr, if_neg, ite_false]
    exact h.append (List.nodup_singleton r) (fun x hx hxr => by
      simp only [List.mem_singleton] at hxr
      subst hxr
      exact hr hx)

/-- Folding `attachRef` over any reference list preserves distinctness. -/
theorem foldl_attachRef_nodup (rs : List Reference) :
    ∀ acc : List Reference, acc.Nodup → (rs.foldl attachRef acc).Nodup := by
  induction rs with
  | nil => intro acc h; exact h
  | cons r rs ih => intro acc h; exact ih _ (attachRef_nodup acc r h)

/-- The candidate-level attachment fold preserves distinctness. -/
theorem attachCandidates_fold_nodup (cands : List Candidate) :
    ∀ acc : List Reference, acc.Nodup →
      (cands.foldl (fun acc c => c.refs.foldl attachRef acc) acc).Nodup := by
  induction cands with
  | nil => intro acc h; exact h
  | cons c cs ih => intro acc h; exact ih _ (foldl_attachRef_nodup c.refs acc h)

/-- A reference in the output of the clause-element expansion fold came
from the accumulator or from one of the elements. -/
theorem mem_expandClause_fold (book : String) (ch : Nat) (es : List VerseElem) :
    ∀ (acc : List Reference × List DiscardLog) (r : Reference),
      r ∈ (es.foldl
            (fun acc e =>
              let x := expandElem book ch e
              (acc.1 ++ x.1, acc.2 ++ x.2)) acc).1 →
      r ∈ acc.1 ∨ ∃ e ∈ es, r ∈ (expandElem book ch e).1 := by
  induction es with
  | nil => intro acc r h; exact Or.inl h
  | cons e es ih =>
    intro acc r h
    rcases ih _ r h with h' | ⟨e', he', hr'⟩
    · rcases List.mem_append.mp h' with h1 | h2
      · exact Or.inl h1
      · exact Or.inr ⟨e, List.mem_cons_self e es, h2⟩
    · exact Or.inr ⟨e', List.mem_cons_of_mem e he', hr'⟩

/-- A reference in the output of the clause-list expansion fold came from
the accumulator or from one of the clauses. -/
theorem mem_expandClauses_fold (book : String) (cls : List Clause) :
    ∀ (acc : List Reference × List DiscardLog) (r : Reference),
      r ∈ (cls.foldl
            (fun acc cl =>
              let x := expandClause book cl
              (acc.1 ++ x.1, acc.2 ++ x.2)) acc).1 →
      r ∈ acc.1 ∨ ∃ cl ∈ cls, r ∈ (expandClause book cl).1 := by
  induction cls with
  | nil => intro acc r h; exact Or.inl h
  | cons cl cls ih =>
    intro acc r h
    rcases ih _ r h with h' | ⟨cl', hcl', hr'⟩
    · rcases List.mem_append.mp h' with h1 | h2
      · exact Or.inl h1
      · exact Or.inr ⟨cl, List.mem_cons_self cl cls, h2⟩
    · exact Or.inr ⟨cl', List.mem_cons_of_mem cl hcl', hr'⟩

/-- Every reference emitted by the element expander under a positive
chapter satisfies the Reference invariant. -/
theorem expandElem_refOK (book : String) (ch : Nat) (hch : 1 ≤ ch) (e : VerseElem)
    (r : Reference) (hr : r ∈ (expandElem book ch e).1) : refOK r := by
  cases e with
  | single v =>
    simp only [expandElem, List.mem_singleton] at hr
    subst hr
    exact ⟨trivial, hch⟩
  | range a b =>
    unfold expandElem at hr
    by_cases hab : b < a
    · simp [hab] at hr
    · simp only [hab, ite_false, List.mem_map, List.mem_range] at hr
      obtain ⟨i, _, hi⟩ := hr
      subst hi
      exact ⟨trivial, hch⟩

/-- Every reference emitted by the clause expander satisfies the
Reference invariant. -/
theorem expandClause_refOK (book : String) (cl : Clause) (r : Reference)
    (hr : r ∈ (expandClause book cl).1) : refOK r := by
  unfold expandClause at hr
  by_cases hch : cl.chapter = 0
  · simp [hch] at hr
  · simp only [hch, ite_false] at hr
    rcases mem_expandClause_fold book cl.chapter cl.elems ([], []) r hr with h | ⟨e, _, he⟩
    · simp at h
    · exact expandElem_refOK book cl.chapter (Nat.one_le_iff_ne_zero.mpr hch) e r he

/-- Every reference emitted by the citation expander satisfies the
Reference invariant. -/
theorem expandClauses_refOK (book : String) (cls : List Clause) (r : Reference)
    (hr : r ∈ (expandClauses book cls).1) : refOK r := by
  unfold expandClauses at hr
  rcases mem_expandClauses_fold book cls ([], []) r hr with h | ⟨cl, _, hcl⟩
  · simp at h
  · exact expandClause_refOK book cl r hcl

/-- A non-header explicit citation never changes the section-scope
stack. -/
theorem processExplicit_stack (st : ContextState) (b : String) (cls : List Clause) :
    (processExplicit st b cls).1.stack = st.stack := by
  unfold processExplicit
  cases hv : validClauses cls <;> rfl

/-- A Standalone citation never changes the context state at all. -/
theorem processStandalone_state (st : ContextState) (e : VerseElem) :
    (processStandalone st e).1 = st := by
  unfold processStandalone
  cases hr : resolveStandalone st with
  | some bc => obtain ⟨b, c⟩ := bc; rfl
  | none => rfl

/-- Scanning a body line never changes the section-scope stack. -/
theorem processBody_stack (st : ContextState) (l : List Char) :
    (processBody st l).1.stack = st.stack := by
  unfold processBody
  cases hs : parseStandaloneL l with
  | some e => exact congrArg ContextState.stack (processStandalone_state st e)
  | none =>
    cases hp : parseHeaderRefL l with
    | some bc => obtain ⟨b, cls⟩ := bc; exact processExplicit_stack st b cls
    | none => rfl

/-- Scanning a text line that is not a Scripture Reading header leaves
the section-scope stack unchanged. -/
theorem processText_stack_eq (st : ContextState) (l : List Char)
    (h : stripPrefixL srMarker (trimL l) = none) :
    (processText st l).1.stack = st.stack := by
  unfold processText
  rw [h]
  exact processBody_stack st l

/-- A well-formed context: every recorded book/chapter pair, on the
section-scope stack or as the current context, has a positive chapter. -/
def ctxOK (st : ContextState) : Prop :=
  (∀ bc ∈ st.stack, 1 ≤ bc.2) ∧ (∀ bc, st.current = some bc → 1 ≤ bc.2)

/-- The fresh per-run context is well-formed. -/
theorem initCtx_ctxOK : ctxOK initCtx :=
  ⟨fun bc h => absurd h (List.not_mem_nil bc), fun _ h => Option.noConfusion h⟩

/-- Every accepted clause has a positive chapter. -/
theorem validClauses_pos (cls : List Clause) (cl : Clause)
    (h : cl ∈ validClauses cls) : 1 ≤ cl.chapter := by
  have h' := (List.mem_filter.mp h).2
  exact Nat.one_le_iff_ne_zero.mpr (by simpa using h')

/-- The governing chapter of a clause list all of whose members have
positive chapters is positive. -/
theorem lastChapter_pos (cls : List Clause) (h : ∀ cl ∈ cls, 1 ≤ cl.chapter) :
    1 ≤ lastChapter cls := by
  unfold lastChapter
  cases hg : cls.getLast? with
  | none => exact le_refl 1
  | some cl =>
    show 1 ≤ cl.chapter
    obtain ⟨hne, heq⟩ := List.mem_getLast?_eq_getLast (Option.mem_def.mpr hg)
    rw [heq]
    exact h _ (List.getLast_mem hne)

/-- The governing chapter of a nonempty accepted-clause list is positive. -/
theorem lastChapter_validClauses_pos (cls : List Clause) (c1 : Clause)
    (vrest : List Clause) (hv : validClauses cls = c1 :: vrest) :
    1 ≤ lastChapter (c1 :: vrest) := by
  apply lastChapter_pos
  intro cl hcl
  exact validClauses_pos cls cl (by rw [hv]; exact hcl)

/-- Under a well-formed context, standalone resolution only produces a
positive chapter. -/
theorem resolveStandalone_pos (st : ContextState) (h : ctxOK st) (b : String)
    (c : Nat) (hr : resolveStandalone st = some (b, c)) : 1 ≤ c := by
  unfold resolveStandalone at hr
  cases hst : st.stack with
  | cons bc rest =>
    rw [hst] at hr
    simp only [Option.some.injEq] at hr
    have hmem : bc ∈ st.stack := by rw [hst]; exact List.mem_cons_self bc rest
    have hb := h.1 bc hmem
    rw [hr] at hb
    exact hb
  | nil =>
    rw [hst] at hr
    exact h.2 (b, c) hr

/-- A Scripture Reading citation preserves context well-formedness: the
pushed scope and updated current context come from accepted clauses. -/
theorem processSR_ctxOK (st : ContextState) (h : ctxOK st) (b : String)
    (cls : List Clause) : ctxOK (processSR st b cls).1 := by
  unfold processSR
  cases hv : validClauses cls with
  | nil => exact h
  | cons c1 vrest =>
    constructor
    · intro bc hbc
      rcases List.mem_cons.mp hbc with rfl | hbc'
      · exact validClauses_pos cls c1 (by rw [hv]; exact List.mem_cons_self c1 vrest)
      · exact h.1 bc hbc'
    · intro bc hbc
      have hbc' : (b, lastChapter (c1 :: vrest)) = bc := Option.some.inj hbc
      rw [← hbc']
      exact lastChapter_validClauses_pos cls c1 vrest hv

/-- An explicit citation preserves context well-formedness. -/
theorem processExplicit_ctxOK (st : ContextState) (h : ctxOK st) (b : String)
    (cls : List Clause) : ctxOK (processExplicit st b cls).1 := by
  unfold processExplicit
  cases hv : validClauses cls with
  | nil => exact h
  | cons c1 vrest =>
    constructor
    · intro bc hbc
      exact h.1 bc hbc
    · intro bc hbc
      have hbc' : (b, lastChapter (c1 :: vrest)) = bc := Option.some.inj hbc
      rw [← hbc']
      exact lastChapter_validClauses_pos cls c1 vrest hv

/-- A Standalone citation preserves context well-formedness. -/
theorem processStandalone_ctxOK (st : ContextState) (h : ctxOK st) (e : VerseElem) :
    ctxOK (processStandalone st e).1 := by
  rw [processStandalone_state st e]
  exact h

/-- A Scripture Reading line preserves context well-formedness. -/
theorem processSRLine_ctxOK (st : ContextState) (h : ctxOK st) (rest : List Char) :
    ctxOK (processSRLine st rest).1 := by
  unfold processSRLine
  cases hp : parseHeaderRefL rest with
  | some bc => obtain ⟨b, cls⟩ := bc; exact processSR_ctxOK st h b cls
  | none => exact h

/-- A body line preserves context well-formedness. -/
theorem processBody_ctxOK (st : ContextState) (h : ctxOK st) (l : List Char) :
    ctxOK (processBody st l).1 := by
  unfold processBody
  cases hs : parseStandaloneL l with
  | some e => exact processStandalone_ctxOK st h e
  | none =>
    cases hp : parseHeaderRefL l with
    | some bc => obtain ⟨b, cls⟩ := bc; exact processExplicit_ctxOK st h b cls
    | none => exact h

/-- Scanning a text line preserves context well-formedness: the context
is only ever updated from accepted clauses. -/
theorem processText_ctxOK (st : ContextState) (h : ctxOK st) (l : List Char) :
    ctxOK (processText st l).1 := by
  unfold processText
  cases hsr : stripPrefixL srMarker (trimL l) with
  | some rest => exact processSRLine_ctxOK st h rest
  | none => exact processBody_ctxOK st h l

/-- Every reference emitted for a Scripture Reading citation satisfies
the Reference invariant. -/
theorem processSR_refOK (st : ContextState) (b : String) (cls : List Clause)
    (r : Reference) (hr : r ∈ (processSR st b cls).2) : refOK r := by
  unfold processSR at hr
  cases hv : validClauses cls <;> rw [hv] at hr <;>
    exact expandClauses_refOK b cls r hr

/-- Every reference emitted for an explicit citation satisfies the
Reference invariant. -/
theorem processExplicit_refOK (st : ContextState) (b : String) (cls : List Clause)
    (r : Reference) (hr : r ∈ (processExplicit st b cls).2) : refOK r := by
  unfold processExplicit at hr
  cases hv : validClauses cls <;> rw [hv] at hr <;>
    exact expandClauses_refOK b cls r hr

/-- Under a well-formed context, every reference emitted for a
Standalone citation satisfies the Reference invariant. -/
theorem processStandalone_refOK (st : ContextState) (h : ctxOK st) (e : VerseElem)
    (r : Reference) (hr : r ∈ (processStandalone st e).2) : refOK r := by
  unfold processStandalone at hr
  cases hrs : resolveStandalone st with
  | some bc =>
    obtain ⟨b, c⟩ := bc
    rw [hrs] at hr
    exact expandElem_refOK b c (resolveStandalone_pos st h b c hrs) e r hr
  | none =>
    rw [hrs] at hr
    exact absurd hr (List.not_mem_nil r)

/-- Every reference emitted for a Scripture Reading line satisfies the
Reference invariant. -/
theorem processSRLine_refOK (st : ContextState) (rest : List Char)
    (r : Reference) (hr : r ∈ (processSRLine st rest).2) : refOK r := by
  unfold processSRLine at hr
  cases hp : parseHeaderRefL rest with
  | some bc =>
    obtain ⟨b, cls⟩ := bc
    rw [hp] at hr
    exact processSR_refOK st b cls r hr
  | none =>
    rw [hp] at hr
    exact absurd hr (List.not_mem_nil r)

/-- Under a well-formed context, every reference emitted for a body line
satisfies the Reference invariant. -/
theorem processBody_refOK (st : ContextState) (h : ctxOK st) (l : List Char)
    (r : Reference) (hr : r ∈ (processBody st l).2) : refOK r := by
  unfold processBody at hr
  cases hs : parseStandaloneL l with
  | some e =>
    rw [hs] at hr
    exact processStandalone_refOK st h e r hr
  | none =>
    rw [hs] at hr
    cases hp : parseHeaderRefL l with
    | some bc =>
      obtain ⟨b, cls⟩ := bc
      rw [hp] at hr
      exact processExplicit_refOK st b cls r hr
    | none =>
      rw [hp] at hr
      exact absurd hr (List.not_mem_nil r)

/-- Under a well-formed context, every reference emitted for a text line
satisfies the Reference invariant. -/
theorem processText_refOK (st : ContextState) (h : ctxOK st) (l : List Char)
    (r : Reference) (hr : r ∈ (processText st l).2) : refOK r := by
  unfold processText at hr
  cases hsr : stripPrefixL srMarker (trimL l) with
  | some rest =>
    rw [hsr] at hr
    exact processSRLine_refOK st rest r hr
  | none =>
    rw [hsr] at hr
    exact processBody_refOK st h l r hr

/-- Processing one line item preserves context well-formedness. -/
theorem processItem_ctxOK (st : ContextState) (h : ctxOK st) (it : LineItem) :
    ctxOK (processItem st it).1 := by
  cases it with
  | header => exact ⟨fun bc hbc => h.1 bc (List.mem_of_mem_tail hbc), h.2⟩
  | text s => exact processText_ctxOK st h s.toList

/-- Under a well-formed context, every reference emitted for a line item
satisfies the Reference invariant. -/
theorem processItem_refOK (st : ContextState) (h : ctxOK st) (it : LineItem)
    (r : Reference) (hr : r ∈ (processItem st it).2) : refOK r := by
  cases it with
  | header => simp [processItem] at hr
  | text s => exact processText_refOK st h s.toList r hr

/-- The detection fold emits only invariant-satisfying references, given
a well-formed state and accumulator. -/
theorem runDetection_fold_refOK (doc : List LineItem) :
    ∀ acc : ContextState × List Reference, ctxOK acc.1 →
      (∀ r ∈ acc.2, refOK r) →
      ∀ r ∈ (doc.foldl
              (fun a it =>
                let x := processItem a.1 it
                (x.1, a.2 ++ x.2)) acc).2,
        refOK r := by
  induction doc with
  | nil => intro acc _ h2 r hr; exact h2 r hr
  | cons it doc ih =>
    intro acc h1 h2 r hr
    rw [List.foldl_cons] at hr
    refine ih _ ?_ ?_ r hr
    · exact processItem_ctxOK acc.1 h1 it
    · intro r' hr'
      have hr2 : r' ∈ acc.2 ++ (processItem acc.1 it).2 := hr'
      rcases List.mem_append.mp hr2 with hl | hl
      · exact h2 r' hl
      · exact processItem_refOK acc.1 h1 it r' hl

/-- Every reference produced by a full detection pass satisfies the
Reference invariant. -/
theorem runDetection_refOK (doc : List LineItem) (r : Reference)
    (hr : r ∈ runDetection doc) : refOK r := by
  unfold runDetection at hr
  exact runDetection_fold_refOK doc (initCtx, []) initCtx_ctxOK
    (fun r' h' => absurd h' (List.not_mem_nil r')) r hr

/-- Every reference carried by a parsed candidate satisfies the
Reference invariant. -/
theorem parseCandidate_refOK (s : String) (c : Candidate) (r : Reference)
    (hc : parseCandidate s = some c) (hr : r ∈ c.refs) : refOK r := by
  unfold parseCandidate at hc
  cases hu : unparen (trimL s.toList) with
  | some inner =>
    rw [hu] at hc
    rw [Option.map_eq_some'] at hc
    obtain ⟨bc, _, rfl⟩ := hc
    exact expandClauses_refOK bc.1 bc.2 r hr
  | none =>
    rw [hu] at hc
    rw [Option.map_eq_some'] at hc
    obtain ⟨bc, _, rfl⟩ := hc
    exact expandClauses_refOK bc.1 bc.2 r hr

/-! ## Claim theorems -/

/-- C1: range expansion of the header `Eph. 4:7-16; 6:10-20` produces
exactly 21 canonical References — the 10 verses Ephesians 4:7 through
4:16 followed by the 11 verses Ephesians 6:10 through 6:20, every one
with book Ephesians. -/
theorem c1_eph_header_expansion :
    expandHeader "Eph. 4:7-16; 6:10-20" =
      some (((List.range 10).map fun i => (⟨"Ephesians", 4, 7 + i, none⟩ : Reference)) ++
            ((List.range 11).map fun i => (⟨"Ephesians", 6, 10 + i, none⟩ : Reference))) ∧
    (expandHeader "Eph. 4:7-16; 6:10-20").map List.length = some 21 := by
  constructor
  · decide
  · decide

/-- C2: list expansion of `Rom. 16:1, 4-5, 16, 20` produces exactly the
five References Romans 16:1, 16:4, 16:5, 16:16 and 16:20, each comma
element expanded independently under the shared book and chapter, in
input order, with no extra verses in between. -/
theorem c2_rom_list_expansion :
    expandHeader "Rom. 16:1, 4-5, 16, 20" =
      some [⟨"Romans", 16, 1, none⟩, ⟨"Romans", 16, 4, none⟩,
            ⟨"Romans", 16, 5, none⟩, ⟨"Romans", 16, 16, none⟩,
            ⟨"Romans", 16, 20, none⟩] := by
  decide

/-- C3: for every outline line, the Deduplicator attaches each canonical
Reference to the node of the line at most once (the attached list is
duplicate-free), and in particular a Reference cited once parenthetically
as `(Acts 10:43)` and once inline as `Acts 10:43` attaches only once. -/
theorem c3_attach_once_per_line :
    (∀ cands : List Candidate, (attachCandidates cands).Nodup) ∧
    attachCandidates ((parseCandidate "(Acts 10:43)").toList ++
                      (parseCandidate "Acts 10:43").toList) =
      [⟨"Acts", 10, 43, none⟩] := by
  constructor
  · intro cands
    exact attachCandidates_fold_nodup cands [] List.nodup_nil
  · decide

/-- C4: a Standalone candidate resolves through the section-scoped
context pushed by a Scripture Reading header: whenever the section-scope
stack is nonempty its top governs resolution regardless of the
nearest-preceding context; a non-header citation line never changes the
stack (so the scope survives intervening explicit references); and in the
concrete section opened by `Scripture Reading: Rom. 8:2, 31-39`, both
`v. 2` and `vv. 31-39` resolve to Romans chapter 8 even across an
intervening `John 3:16`. -/
theorem c4_section_scope_resolution :
    (∀ (st : ContextState) (b : String) (c : Nat) (rest : List (String × Nat)),
        st.stack = (b, c) :: rest → resolveStandalone st = some (b, c)) ∧
    (∀ (st : ContextState) (l : List Char),
        stripPrefixL srMarker (trimL l) = none →
        (processText st l).1.stack = st.stack) ∧
    runDetection
        [LineItem.text "Scripture Reading: Rom. 8:2, 31-39",
         LineItem.text "John 3:16",
         LineItem.text "v. 2",
         LineItem.text "vv. 31-39"] =
      ((⟨"Romans", 8, 2, none⟩ : Reference) ::
          ((List.range 9).map fun i => (⟨"Romans", 8, 31 + i, none⟩ : Reference))) ++
        [⟨"John", 3, 16, none⟩] ++
        [⟨"Romans", 8, 2, none⟩] ++
        ((List.range 9).map fun i => (⟨"Romans", 8, 31 + i, none⟩ : Reference)) := by
  refine ⟨?_, ?_, ?_⟩
  · intro st b c rest h
    unfold resolveStandalone
    rw [h]
  · intro st l h
    exact processText_stack_eq st l h
  · decide

/-- Witness for C4: the stack-top rule and the stack-preservation rule
applied at a concrete state and line. -/
theorem c4_witness :
    resolveStandalone ⟨some ("John", 3), [("Romans", 8)]⟩ = some ("Romans", 8) ∧
    (processText ⟨some ("John", 3), [("Romans", 8)]⟩ "Acts 10:43".toList).1.stack =
      [("Romans", 8)] :=
  ⟨c4_section_scope_resolution.1 ⟨some ("John", 3), [("Romans", 8)]⟩ "Romans" 8 [] rfl,
   c4_section_scope_resolution.2.1 ⟨some ("John", 3), [("Romans", 8)]⟩ "Acts 10:43".toList
     (by decide)⟩

/-- C5: every Reference produced by any operation of the modelled
pipeline — a full detection pass over any document (explicit, Scripture
Reading and context-resolved standalone citations alike), citation
expansion, or candidate parsing — satisfies the invariant
(`verseStart ≤ verseEnd` when present, `chapter ≥ 1`); and a candidate
range with `verseEnd < verseStart` is never turned into a Reference: it
is discarded with a log entry. -/
theorem c5_reference_invariant :
    (∀ (doc : List LineItem) (r : Reference), r ∈ runDetection doc → refOK r) ∧
    (∀ (book : String) (cls : List Clause) (r : Reference),
        r ∈ (expandClauses book cls).1 → refOK r) ∧
    (∀ (s : String) (c : Candidate) (r : Reference),
        parseCandidate s = some c → r ∈ c.refs → refOK r) ∧
    (∀ (book : String) (ch a b : Nat), b < a →
        expandElem book ch (VerseElem.range a b) =
          ([], [DiscardLog.badRange book ch a b])) := by
  refine ⟨?_, ?_, ?_, ?_⟩
  · intro doc r hr
    exact runDetection_refOK doc r hr
  · intro book cls r hr
    exact expandClauses_refOK book cls r hr
  · intro s c r hc hr
    exact parseCandidate_refOK s c r hc hr
  · intro book ch a b hab
    simp [expandElem, hab]

/-- Witness for C5: the invariant at a Reference produced by a concrete
detection pass, and the discard-and-log behaviour at a concrete
decreasing range. -/
theorem c5_witness :
    refOK ⟨"Acts", 10, 43, none⟩ ∧
    expandElem "Acts" 10 (VerseElem.range 5 3) =
      ([], [DiscardLog.badRange "Acts" 10 5 3]) :=
  ⟨c5_reference_invariant.1 [LineItem.text "Acts 10:43"] ⟨"Acts", 10, 43, none⟩
     (by decide),
   c5_reference_invariant.2.2.2 "Acts" 10 5 3 (by decide)⟩

/-- C6: pattern-based detection is deterministic — two passes over
identical text give the identical reference list, and with the
generative-detection fallback disabled the result is independent of the
generative service (it equals the pattern-only result, whatever service
is plugged in). -/
theorem c6_detection_deterministic :
    (∀ doc : List LineItem, runDetection doc = runDetection doc) ∧
    (∀ (doc : List LineItem) (g g' : List LineItem → List Reference),
        runDetectionFull false g doc = runDetectionFull false g' doc) ∧
    (∀ (doc : List LineItem) (g : List LineItem → List Reference),
        runDetectionFull false g doc = runDetection doc) :=
  ⟨fun _ => rfl, fun _ _ _ => rfl, fun _ _ => rfl⟩

/-- C7: every rendered-document request the clients build carries a
layout drawn from exactly the two admitted values: of the four populate
call sites in the repository, the two frontend handlers send `inline`
and the two test clients send `margin`, and each of the four is one of
the admitted layout values. -/
theorem c7_populate_layouts :
    ∀ sessionId : String,
      (Frontend.handlePopulateVersesCall sessionId).format = "inline" ∧
      (Frontend.handlePopulateCall sessionId).format = "inline" ∧
      (Frontend.testPopulateVersesCall sessionId).format = "margin" ∧
      (Frontend.uploadTestPopulateVersesCall sessionId).format = "margin" ∧
      (Frontend.handlePopulateVersesCall sessionId).format ∈ Frontend.layoutValues ∧
      (Frontend.handlePopulateCall sessionId).format ∈ Frontend.layoutValues ∧
      (Frontend.testPopulateVersesCall sessionId).format ∈ Frontend.layoutValues ∧
      (Frontend.uploadTestPopulateVersesCall sessionId).format ∈ Frontend.layoutValues := by
  intro sessionId
  refine ⟨rfl, rfl, rfl, rfl, ?_, ?_, ?_, ?_⟩ <;>
    simp [Frontend.handlePopulateVersesCall, Frontend.handlePopulateCall,
          Frontend.testPopulateVersesCall, Frontend.uploadTestPopulateVersesCall,
          Frontend.layoutValues]

/-- C8 counterexample: `getApiUrl` is not insensitive to a leading slash
on an argument that already starts with one — at the concrete endpoint
`/upload`, prepending a further slash changes the result, because only
one leading slash is stripped. -/
theorem c8_counterexample :
    Frontend.getApiUrl false "/upload".toList ≠
      Frontend.getApiUrl false ('/' :: "/upload".toList) := by
  decide

/-- C8 (amended): for every endpoint `e`, `getApiUrl e` is the base URL,
a slash, and `e` with one leading slash stripped if present; and for
every `e` that does not itself start with a slash, `getApiUrl e` equals
`getApiUrl` of `/` followed by `e`, and the joined URL has no doubled
slash at the join point (the base never ends in a slash and the cleaned
endpoint never begins with one). -/
theorem c8_getApiUrl_slash :
    (∀ (d : Bool) (e : List Char),
        Frontend.getApiUrl d e =
          Frontend.API_BASE_URL d ++ '/' :: Frontend.stripOneLeadingSlash e) ∧
    (∀ d : Bool, (Frontend.API_BASE_URL d).getLast? ≠ some '/') ∧
    (∀ (d : Bool) (e : List Char), e.head? ≠ some '/' →
        Frontend.getApiUrl d e = Frontend.getApiUrl d ('/' :: e) ∧
        (Frontend.stripOneLeadingSlash e).head? ≠ some '/') := by
  refine ⟨fun d e => rfl, fun d => by cases d <;> decide, ?_⟩
  intro d e h
  constructor
  · simp [Frontend.getApiUrl, h]
  · simp [Frontend.stripOneLeadingSlash, h]

/-- Witness for C8: the slash-insensitivity law applied at the concrete
endpoint `upload`. -/
theorem c8_witness :
    Frontend.getApiUrl false "upload".toList =
      Frontend.getApiUrl false ('/' :: "upload".toList) :=
  (c8_getApiUrl_slash.2.2 false "upload".toList (by decide)).1

/-- C9: `handleFileUpload` rejects invalid files before any network
activity — for every file whose MIME type is not allowed or whose size
exceeds 10·1024·1024 bytes, it sets an error message, issues no upload
request, and never invokes the `onFileProcessed` callback, whatever the
network would have answered. -/
theorem c9_reject_before_network :
    ∀ (f : Frontend.UploadFile) (server : Frontend.ServerOutcome),
      (f.type ∉ Frontend.allowedTypes ∨ 10 * 1024 * 1024 < f.size) →
      (Frontend.handleFileUpload f server).errorMsg.isSome = true ∧
      (Frontend.handleFileUpload f server).requestIssued = false ∧
      (Frontend.handleFileUpload f server).callbackInvoked = false := by
  intro f server h
  unfold Frontend.handleFileUpload
  by_cases ht : f.type ∈ Frontend.allowedTypes
  · rcases h with h | h
    · exact absurd ht h
    · simp [ht, h]
  · simp [ht]

/-- Witness for C9: a PNG file is rejected with no request and no
callback. -/
theorem c9_witness :
    (Frontend.handleFileUpload ⟨"image/png", 100⟩
        Frontend.ServerOutcome.thrown).errorMsg.isSome = true ∧
    (Frontend.handleFileUpload ⟨"image/png", 100⟩
        Frontend.ServerOutcome.thrown).requestIssued = false ∧
    (Frontend.handleFileUpload ⟨"image/png", 100⟩
        Frontend.ServerOutcome.thrown).callbackInvoked = false :=
  c9_reject_before_network ⟨"image/png", 100⟩ Frontend.ServerOutcome.thrown
    (Or.inl (by decide))

/-- C10: `handleFileUpload` never reports a failed upload as processed —
when a valid file gets a parsed response whose `success` field is false,
the error state is set to the server message (or the fallback when that
is absent) and the callback is not invoked; and the callback is invoked
only on a parsed response whose `success` field is true. -/
theorem c10_no_false_success :
    (∀ (f : Frontend.UploadFile) (r : Frontend.UploadResult),
        f.type ∈ Frontend.allowedTypes →
        f.size ≤ 10 * 1024 * 1024 →
        r.success = false →
        (Frontend.handleFileUpload f (Frontend.ServerOutcome.json r)).callbackInvoked
            = false ∧
        (Frontend.handleFileUpload f (Frontend.ServerOutcome.json r)).errorMsg =
          some (Frontend.jsOrElse r.error Frontend.fallbackErrorMsg)) ∧
    (∀ (f : Frontend.UploadFile) (server : Frontend.ServerOutcome),
        (Frontend.handleFileUpload f server).callbackInvoked = true →
        ∃ r, server = Frontend.ServerOutcome.json r ∧ r.success = true) := by
  constructor
  · intro f r ht hs hr
    have hs' : ¬ (10 * 1024 * 1024 < f.size) := Nat.not_lt.mpr hs
    constructor
    · simp [Frontend.handleFileUpload, ht, hs', hr]
    · simp [Frontend.handleFileUpload, ht, hs', hr]
  · intro f server h
    unfold Frontend.handleFileUpload at h
    by_cases ht : f.type ∈ Frontend.allowedTypes
    · by_cases hs : 10 * 1024 * 1024 < f.size
      · simp [ht, hs] at h
      · cases server with
        | thrown => simp [ht, hs] at h
        | json r =>
          by_cases hr : r.success
          · exact ⟨r, rfl, hr⟩
          · simp [ht, hs, hr] at h
    · simp [ht] at h

/-- Witness for C10: a failed response for a valid text file sets the
server error message and does not invoke the callback. -/
theorem c10_witness :
    (Frontend.handleFileUpload ⟨"text/plain", 5⟩
        (Frontend.ServerOutcome.json ⟨false, some "boom", none⟩)).callbackInvoked
        = false ∧
    (Frontend.handleFileUpload ⟨"text/plain", 5⟩
        (Frontend.ServerOutcome.json ⟨false, some "boom", none⟩)).errorMsg =
      some (Frontend.jsOrElse (some "boom") Frontend.fallbackErrorMsg) :=
  c10_no_false_success.1 ⟨"text/plain", 5⟩ ⟨false, some "boom", none⟩
    (by decide) (by decide) rfl

end BibleOutline
